import Mathlib

/-!
Verification of the crypto tracker script (src/main.py).

The script repeatedly fetches a ranked list of asset quotes from a market-data
provider, computes summary statistics, and writes both the raw snapshot and the
summary into a spreadsheet.  The development below embeds:

* the per-quote data (`AssetQuote`) and the analysis step performed inline in
  `fetch_and_update_crypto_data` (lines 150-172): the stable descending sort by
  market cap, `statistics.mean`, `max`, `min`;
* the rendered rows (lines 133-154) and the sheet mutations
  `sheet.clear()` / `sheet.update(...)` (lines 146-147 and 175), with the
  spreadsheet modelled as a grid of optional cells;
* one cycle of `fetch_and_update_crypto_data` with its `try/except` structure
  (lines 121-190), parameterised by which sink operations fail;
* the outer `monitor_and_retry` loop (lines 192-218) with its retry counter and
  exponential backoff, plus the exit-code behaviour of `main` (lines 241-259);
* the credential resolution of `validate_service_account_json` (lines 22-80).

Machine floats are modelled as rationals; `statistics.mean` computes an exact
sum before dividing, so the rational model matches the intended value.
-/

deriving instance DecidableEq for Except

namespace Crypto

/-- One asset as read from the provider response: the fields of each `coin`
dict used by `fetch_and_update_crypto_data` (src/main.py lines 133-161).
Prices and 24h percentage changes are decimals (modelled as rationals); market
cap and total volume are the integers the provider reports (they are formatted
with a thousands separator and no decimals at lines 138-139). -/
structure AssetQuote where
  name : String
  symbol : String
  current_price : Rat
  market_cap : Int
  total_volume : Int
  price_change_percentage_24h : Rat
deriving DecidableEq, Repr

/-- The sort key of `sorted(data, key=lambda x: x['market_cap'], reverse=True)`
(src/main.py line 150). -/
def mcKey (c : AssetQuote) : Int := c.market_cap

/-- Stable insertion for a descending sort: `a` is placed immediately before
the first element whose key is `≤ mcKey a`.  Every element the recursion skips
has a strictly larger key, so elements whose key equals `a`'s key and that are
already in the list end up behind `a`; combined with `sortByDesc` below (which
inserts earlier elements later) this reproduces the tie behaviour of Python's
stable `sorted`. -/
def insertByDesc (a : AssetQuote) : List AssetQuote → List AssetQuote
  | [] => [a]
  | b :: l => if mcKey b ≤ mcKey a then a :: b :: l else b :: insertByDesc a l

/-- Embedding of `sorted(data, key=lambda x: x['market_cap'], reverse=True)`
(src/main.py line 150).  Python's `sorted` is a stable sort; a stable
descending sort is unique, and the insertion sort below is proved sorted,
a permutation, and stable (`sortByDesc_filter`). -/
def sortByDesc : List AssetQuote → List AssetQuote
  | [] => []
  | a :: l => insertByDesc a (sortByDesc l)

theorem insertByDesc_perm (a : AssetQuote) (l : List AssetQuote) :
    List.Perm (insertByDesc a l) (a :: l) := by
  induction l with
  | nil => exact List.Perm.refl _
  | cons b l ih =>
    by_cases hba : mcKey b ≤ mcKey a
    · simp [insertByDesc, hba]
    · simp only [insertByDesc, if_neg hba]
      exact (ih.cons b).trans (List.Perm.swap a b l)

theorem sortByDesc_perm (l : List AssetQuote) : List.Perm (sortByDesc l) l := by
  induction l with
  | nil => exact List.Perm.refl _
  | cons a l ih => exact (insertByDesc_perm a (sortByDesc l)).trans (ih.cons a)

theorem mem_insertByDesc {x a : AssetQuote} {l : List AssetQuote} :
    x ∈ insertByDesc a l ↔ x = a ∨ x ∈ l := by
  rw [List.Perm.mem_iff (insertByDesc_perm a l)]
  simp

theorem insertByDesc_pairwise (a : AssetQuote) {l : List AssetQuote}
    (h : l.Pairwise (fun x y => mcKey y ≤ mcKey x)) :
    (insertByDesc a l).Pairwise (fun x y => mcKey y ≤ mcKey x) := by
  induction l with
  | nil => simp [insertByDesc]
  | cons b l ih =>
    rcases List.pairwise_cons.mp h with ⟨hb, hl⟩
    by_cases hba : mcKey b ≤ mcKey a
    · simp only [insertByDesc, if_pos hba]
      refine List.pairwise_cons.mpr ⟨?_, h⟩
      intro x hx
      rcases List.mem_cons.mp hx with rfl | hx
      · exact hba
      · exact le_trans (hb x hx) hba
    · simp only [insertByDesc, if_neg hba]
      refine List.pairwise_cons.mpr ⟨?_, ih hl⟩
      intro x hx
      rcases mem_insertByDesc.mp hx with rfl | hx
      · omega
      · exact hb x hx

theorem sortByDesc_pairwise (l : List AssetQuote) :
    (sortByDesc l).Pairwise (fun x y => mcKey y ≤ mcKey x) := by
  induction l with
  | nil => simp [sortByDesc]
  | cons a l ih => exact insertByDesc_pairwise a ih

theorem filter_key_cons (b : AssetQuote) (l : List AssetQuote) (k : Int) :
    (b :: l).filter (fun c => mcKey c == k) =
      if mcKey b = k then b :: l.filter (fun c => mcKey c == k)
      else l.filter (fun c => mcKey c == k) := by
  by_cases h : mcKey b = k <;> simp [List.filter_cons, h]

theorem insertByDesc_filter (a : AssetQuote) (l : List AssetQuote) (k : Int) :
    (insertByDesc a l).filter (fun c => mcKey c == k) =
      if mcKey a = k then a :: l.filter (fun c => mcKey c == k)
      else l.filter (fun c => mcKey c == k) := by
  induction l with
  | nil =>
    simp only [insertByDesc]
    rw [filter_key_cons]
  | cons b l ih =>
    simp only [insertByDesc]
    by_cases hba : mcKey b ≤ mcKey a
    · rw [if_pos hba]
      exact filter_key_cons a (b :: l) k
    · rw [if_neg hba, filter_key_cons, ih, filter_key_cons]
      by_cases hbk : mcKey b = k
      · have hak : ¬ mcKey a = k := by omega
        simp [hbk, hak]
      · by_cases hak : mcKey a = k <;> simp [hbk, hak]

/-- Stability of the embedded sort: for every key value, the elements carrying
that key appear in the sorted output in their original order. -/
theorem sortByDesc_filter (l : List AssetQuote) (k : Int) :
    (sortByDesc l).filter (fun c => mcKey c == k) =
      l.filter (fun c => mcKey c == k) := by
  induction l with
  | nil => rfl
  | cons a l ih =>
    simp only [sortByDesc]
    rw [insertByDesc_filter, ih, filter_key_cons]

/-- The Python exceptions the statistical lines of the analysis step can
raise: `statistics.mean([])` raises `statistics.StatisticsError`
(src/main.py line 158); `max([])` / `min([])` would raise `ValueError`
(lines 160-161, unreachable because `mean` is evaluated first). -/
inductive PyError
  | statisticsError
  | valueError
deriving DecidableEq, Repr

/-- Embedding of `statistics.mean` (src/main.py line 158).  Python's
`statistics.mean` sums exactly before dividing, so on a non-empty list it is
the exact arithmetic mean; on the empty list it raises `StatisticsError`. -/
def statistics_mean (xs : List Rat) : Except PyError Rat :=
  match xs with
  | [] => .error .statisticsError
  | _ :: _ => .ok (xs.sum / (xs.length : Rat))

/-- Embedding of Python's builtin `max` over a list (src/main.py line 160). -/
def listMax (xs : List Rat) : Except PyError Rat :=
  match xs with
  | [] => .error .valueError
  | x :: l => .ok (l.foldl max x)

/-- Embedding of Python's builtin `min` over a list (src/main.py line 161). -/
def listMin (xs : List Rat) : Except PyError Rat :=
  match xs with
  | [] => .error .valueError
  | x :: l => .ok (l.foldl min x)

/-- The summary statistics computed by `fetch_and_update_crypto_data`
(src/main.py lines 150-161): `top_5_by_market_cap`, `average_price`,
`highest_change`, `lowest_change`. -/
structure Summary where
  topByMarketCap : List AssetQuote
  averagePrice : Rat
  maxChangePct : Rat
  minChangePct : Rat
deriving DecidableEq, Repr

/-- The analysis step of `fetch_and_update_crypto_data` (src/main.py lines
150-161), in source order: the stable descending sort truncated to five
entries, then `statistics.mean` over the current prices, then `max` and `min`
over the 24h percentage changes.  The first raising line on an empty snapshot
is `statistics.mean(prices)`. -/
def analyze (data : List AssetQuote) : Except PyError Summary := do
  let top5 := (sortByDesc data).take 5
  let averagePrice ← statistics_mean (data.map (fun c => c.current_price))
  let highestChange ← listMax (data.map (fun c => c.price_change_percentage_24h))
  let lowestChange ← listMin (data.map (fun c => c.price_change_percentage_24h))
  return { topByMarketCap := top5, averagePrice := averagePrice,
           maxChangePct := highestChange, minChangePct := lowestChange }

theorem analyze_cons (d : AssetQuote) (ds : List AssetQuote) :
    analyze (d :: ds) = .ok
      { topByMarketCap := (sortByDesc (d :: ds)).take 5,
        averagePrice := ((d :: ds).map (fun c => c.current_price)).sum /
          ((((d :: ds).map (fun c => c.current_price)).length : Nat) : Rat),
        maxChangePct := (ds.map (fun c => c.price_change_percentage_24h)).foldl
          max d.price_change_percentage_24h,
        minChangePct := (ds.map (fun c => c.price_change_percentage_24h)).foldl
          min d.price_change_percentage_24h } := by
  simp only [analyze, statistics_mean, listMax, listMin, List.map_cons,
    bind, Except.bind, pure, Except.pure]

theorem foldl_max_bound (l : List Rat) (x : Rat) :
    x ≤ l.foldl max x ∧ ∀ y ∈ l, y ≤ l.foldl max x := by
  induction l generalizing x with
  | nil => simp
  | cons b l ih =>
    rcases ih (max x b) with ⟨h1, h2⟩
    refine ⟨le_trans (le_max_left x b) h1, ?_⟩
    intro y hy
    rcases List.mem_cons.mp hy with rfl | hy
    · exact le_trans (le_max_right x y) h1
    · exact h2 y hy

theorem foldl_max_mem (l : List Rat) (x : Rat) :
    l.foldl max x = x ∨ l.foldl max x ∈ l := by
  induction l generalizing x with
  | nil => simp
  | cons b l ih =>
    rw [List.foldl_cons]
    rcases ih (max x b) with h | h
    · rcases max_choice x b with hx | hx
      · rw [hx] at h ⊢
        exact Or.inl h
      · rw [hx] at h ⊢
        rw [h]
        exact Or.inr (List.mem_cons_self b l)
    · exact Or.inr (List.mem_cons_of_mem b h)

theorem foldl_min_bound (l : List Rat) (x : Rat) :
    l.foldl min x ≤ x ∧ ∀ y ∈ l, l.foldl min x ≤ y := by
  induction l generalizing x with
  | nil => simp
  | cons b l ih =>
    rcases ih (min x b) with ⟨h1, h2⟩
    refine ⟨le_trans h1 (min_le_left x b), ?_⟩
    intro y hy
    rcases List.mem_cons.mp hy with rfl | hy
    · exact le_trans h1 (min_le_right x y)
    · exact h2 y hy

theorem foldl_min_mem (l : List Rat) (x : Rat) :
    l.foldl min x = x ∨ l.foldl min x ∈ l := by
  induction l generalizing x with
  | nil => simp
  | cons b l ih =>
    rw [List.foldl_cons]
    rcases ih (min x b) with h | h
    · rcases min_choice x b with hx | hx
      · rw [hx] at h ⊢
        exact Or.inl h
      · rw [hx] at h ⊢
        rw [h]
        exact Or.inr (List.mem_cons_self b l)
    · exact Or.inr (List.mem_cons_of_mem b h)

/-- Sample quotes used as concrete inputs. -/
def coinA : AssetQuote :=
  { name := "Bitcoin", symbol := "btc", current_price := 100,
    market_cap := 1000, total_volume := 500,
    price_change_percentage_24h := 5 }

def coinB : AssetQuote :=
  { name := "Ethereum", symbol := "eth", current_price := 50,
    market_cap := 500, total_volume := 300,
    price_change_percentage_24h := -2 }

/-- C1: on an empty snapshot the analysis step fails with the explicit
statistics error raised by `statistics.mean([])` — not a silent default — and
this is the only way it fails: on every non-empty snapshot it succeeds, and
any error it ever returns is the empty-snapshot statistics error. -/
theorem analyze_fails_iff_empty (data : List AssetQuote) :
    (data = [] → analyze data = .error .statisticsError) ∧
    (data ≠ [] → ∃ s, analyze data = .ok s) ∧
    (∀ e, analyze data = .error e → data = [] ∧ e = .statisticsError) := by
  refine ⟨?_, ?_, ?_⟩
  · rintro rfl
    rfl
  · intro h
    obtain ⟨d, ds, rfl⟩ := List.exists_cons_of_ne_nil h
    exact ⟨_, analyze_cons d ds⟩
  · intro e he
    cases data with
    | nil =>
      refine ⟨rfl, ?_⟩
      have h0 : analyze ([] : List AssetQuote) = .error .statisticsError := rfl
      rw [h0] at he
      exact (Except.error.injEq _ _).mp he.symm
    | cons d ds =>
      rw [analyze_cons] at he
      cases he

theorem analyze_fails_iff_empty_witness :
    analyze ([] : List AssetQuote) = .error .statisticsError ∧
    (∃ s, analyze [coinA] = .ok s) :=
  ⟨(analyze_fails_iff_empty []).1 rfl,
   (analyze_fails_iff_empty [coinA]).2.1 (by decide)⟩

/-- C2: on every non-empty snapshot the analysis succeeds, and
`topByMarketCap` is the five-element (or shorter) prefix of the stable
descending sort by market cap: it has length `min 5 (length data)`, is sorted
by descending market cap, together with the dropped rest it is a permutation
of the snapshot, every kept quote has market cap at least that of every
dropped quote, and ties keep the original provider order (the sort preserves
the relative order of quotes with equal market cap). -/
theorem analyze_top5_correct (data : List AssetQuote) (h : data ≠ []) :
    ∃ s, analyze data = .ok s ∧
      s.topByMarketCap = (sortByDesc data).take 5 ∧
      s.topByMarketCap.length = min 5 data.length ∧
      s.topByMarketCap.Pairwise (fun a b => mcKey b ≤ mcKey a) ∧
      List.Perm (s.topByMarketCap ++ (sortByDesc data).drop 5) data ∧
      (∀ a ∈ s.topByMarketCap, ∀ b ∈ (sortByDesc data).drop 5,
        mcKey b ≤ mcKey a) ∧
      (∀ k : Int, (sortByDesc data).filter (fun c => mcKey c == k) =
        data.filter (fun c => mcKey c == k)) := by
  obtain ⟨d, ds, rfl⟩ := List.exists_cons_of_ne_nil h
  refine ⟨_, analyze_cons d ds, rfl, ?_, ?_, ?_, ?_, ?_⟩
  · rw [List.length_take, List.Perm.length_eq (sortByDesc_perm (d :: ds))]
  · exact (sortByDesc_pairwise (d :: ds)).sublist (List.take_sublist 5 _)
  · rw [List.take_append_drop]
    exact sortByDesc_perm (d :: ds)
  · have hp := sortByDesc_pairwise (d :: ds)
    rw [← List.take_append_drop 5 (sortByDesc (d :: ds))] at hp
    exact (List.pairwise_append.mp hp).2.2
  · exact sortByDesc_filter (d :: ds)

theorem analyze_top5_witness :
    ∃ s, analyze [coinB, coinA] = .ok s ∧
      s.topByMarketCap = (sortByDesc [coinB, coinA]).take 5 ∧
      s.topByMarketCap.length = min 5 ([coinB, coinA].length) := by
  obtain ⟨s, h1, h2, h3, _⟩ := analyze_top5_correct [coinB, coinA] (by decide)
  exact ⟨s, h1, h2, h3⟩

/-- C3: on every non-empty snapshot, `averagePrice` is the exact arithmetic
mean (sum of current prices divided by the count), `maxChangePct` is the
maximum of the 24h percentage changes (it is one of them and bounds them all
from above), and `minChangePct` is their minimum. -/
theorem analyze_stats_correct (data : List AssetQuote) (h : data ≠ []) :
    ∃ s, analyze data = .ok s ∧
      s.averagePrice = (data.map (fun c => c.current_price)).sum /
        ((data.length : Nat) : Rat) ∧
      s.maxChangePct ∈ data.map (fun c => c.price_change_percentage_24h) ∧
      (∀ x ∈ data.map (fun c => c.price_change_percentage_24h),
        x ≤ s.maxChangePct) ∧
      s.minChangePct ∈ data.map (fun c => c.price_change_percentage_24h) ∧
      (∀ x ∈ data.map (fun c => c.price_change_percentage_24h),
        s.minChangePct ≤ x) := by
  obtain ⟨d, ds, rfl⟩ := List.exists_cons_of_ne_nil h
  refine ⟨_, analyze_cons d ds, by simp [List.length_map], ?_, ?_, ?_, ?_⟩
  · rcases foldl_max_mem (ds.map (fun c => c.price_change_percentage_24h))
      d.price_change_percentage_24h with hm | hm
    · rw [List.map_cons, hm]
      exact List.mem_cons_self _ _
    · exact List.mem_cons_of_mem _ hm
  · intro x hx
    rcases foldl_max_bound (ds.map (fun c => c.price_change_percentage_24h))
      d.price_change_percentage_24h with ⟨h1, h2⟩
    rw [List.map_cons] at hx
    rcases List.mem_cons.mp hx with rfl | hx'
    · exact h1
    · exact h2 x hx'
  · rcases foldl_min_mem (ds.map (fun c => c.price_change_percentage_24h))
      d.price_change_percentage_24h with hm | hm
    · rw [List.map_cons, hm]
      exact List.mem_cons_self _ _
    · exact List.mem_cons_of_mem _ hm
  · intro x hx
    rcases foldl_min_bound (ds.map (fun c => c.price_change_percentage_24h))
      d.price_change_percentage_24h with ⟨h1, h2⟩
    rw [List.map_cons] at hx
    rcases List.mem_cons.mp hx with rfl | hx'
    · exact h1
    · exact h2 x hx'

theorem analyze_stats_witness :
    ∃ s, analyze [coinA, coinB] = .ok s ∧
      s.averagePrice = ([coinA, coinB].map (fun c => c.current_price)).sum /
        ((([coinA, coinB].length : Nat)) : Rat) := by
  obtain ⟨s, h1, h2, _⟩ := analyze_stats_correct [coinA, coinB] (by decide)
  exact ⟨s, h1, h2⟩

def twoDigitStr (n : Nat) : String :=
  if n < 10 then "0" ++ toString n else toString n

/-- Inserts a thousands separator every three digits; the input is the digit
list least-significant first. -/
def groupRev (ds : List Char) : List Char :=
  if _h : ds.length ≤ 3 then ds
  else ds.take 3 ++ ',' :: groupRev (ds.drop 3)
termination_by ds.length
decreasing_by simp [List.length_drop]; omega

def natComma (n : Nat) : String :=
  String.mk ((groupRev ((Nat.toDigits 10 n).reverse)).reverse)

def intComma (i : Int) : String :=
  if i < 0 then "-" ++ natComma i.natAbs else natComma i.natAbs

/-- Rounding of a scaled value to the nearest integer, ties to even — the
rounding used when Python formats a float with two decimal places. -/
def roundHalfEven (x : Rat) : Int :=
  let n := x.floor
  let frac := x - (n : Rat)
  if frac < (1 : Rat)/2 then n
  else if (1 : Rat)/2 < frac then n + 1
  else if n % 2 = 0 then n else n + 1

/-- Two-decimal fixed-point formatting with thousands separators, as in the
format specification with a separator and `.2f` (src/main.py line 137). -/
def commaFixed2 (x : Rat) : String :=
  let cents := roundHalfEven (x * 100)
  let a := cents.natAbs
  (if cents < 0 then "-" else "") ++ natComma (a / 100) ++ "." ++
    twoDigitStr (a % 100)

/-- Two-decimal fixed-point formatting without separators, as in `.2f`
(src/main.py line 140). -/
def fixed2 (x : Rat) : String :=
  let cents := roundHalfEven (x * 100)
  let a := cents.natAbs
  (if cents < 0 then "-" else "") ++ toString (a / 100) ++ "." ++
    twoDigitStr (a % 100)

/-- One row of the raw snapshot region (src/main.py lines 134-142): name,
upper-cased symbol, formatted price, market cap, volume, 24h change, and the
capture timestamp (the already-formatted `datetime.now(tz)` string is passed
in as `now`). -/
def rawRow (now : String) (coin : AssetQuote) : List String :=
  [ coin.name,
    coin.symbol.toUpper,
    "$" ++ commaFixed2 coin.current_price,
    "$" ++ intComma coin.market_cap,
    "$" ++ intComma coin.total_volume,
    fixed2 coin.price_change_percentage_24h ++ "%",
    now ]

/-- The `rows` list built at src/main.py lines 132-143. -/
def rawRows (now : String) (data : List AssetQuote) : List (List String) :=
  data.map (rawRow now)

/-- One row of `top_5_data` (src/main.py lines 151-154). -/
def top5Row (coin : AssetQuote) : List String :=
  [coin.name, coin.symbol.toUpper, "$" ++ commaFixed2 coin.current_price]

/-- The `analysis_data` block (src/main.py lines 164-172): the header rows
followed by the top-5 table. -/
def analysisData (s : Summary) : List (List String) :=
  [ ["Analysis Metrics"],
    ["Average Price: $" ++ commaFixed2 s.averagePrice],
    ["Highest 24h Change: " ++ fixed2 s.maxChangePct ++ "%"],
    ["Lowest 24h Change: " ++ fixed2 s.minChangePct ++ "%"],
    [""],
    ["Top 5 Cryptocurrencies by Market Cap:"] ] ++ s.topByMarketCap.map top5Row

/-- The observable state of the spreadsheet: each cell (row, column,
zero-based) holds a value or is empty. -/
def SheetState := Nat → Nat → Option String

def emptySheet : SheetState := fun _ _ => none

/-- Embedding of `sheet.clear()` (src/main.py line 146): every cell is wiped. -/
def clearSheet (_st : SheetState) : SheetState := emptySheet

/-- Embedding of `sheet.update(range, values)`: the given matrix of values is
written starting at cell `(r0, c0)`; cells not covered by a value are left
unchanged. -/
def updateCells (r0 c0 : Nat) (values : List (List String)) (st : SheetState) :
    SheetState :=
  fun r c =>
    if r0 ≤ r ∧ c0 ≤ c then
      match (values.get? (r - r0)).bind (fun row => row.get? (c - c0)) with
      | some v => some v
      | none => st r c
    else st r c

/-- The sink-mutating part of a successful cycle (src/main.py lines 146-175):
`sheet.clear()`, then the raw snapshot written at `A1` (cell (0,0)), then the
analysis block written at `I1` (cell (0,8)). -/
def render (data : List AssetQuote) (now : String) (s : Summary)
    (st : SheetState) : SheetState :=
  updateCells 0 8 (analysisData s)
    (updateCells 0 0 (rawRows now data) (clearSheet st))

/-- A summary value used as a concrete input. -/
def sumA : Summary :=
  { topByMarketCap := [coinA], averagePrice := 100,
    maxChangePct := 5, minChangePct := 5 }

/-- C7: rendering is idempotent per cycle — rendering the same snapshot and
summary twice leaves the sink exactly as rendering it once — and each render
fully replaces the sheet: the result does not depend on the prior state at
all (so no stale data can survive), and every raw-region cell below the
snapshot's last row is empty afterwards. -/
theorem render_idempotent_and_replacing (data : List AssetQuote) (now : String)
    (s : Summary) (st st' : SheetState) :
    render data now s (render data now s st) = render data now s st ∧
    render data now s st' = render data now s st ∧
    (∀ r c, data.length ≤ r → c < 7 → render data now s st r c = none) := by
  refine ⟨rfl, rfl, ?_⟩
  intro r c hr hc
  show updateCells 0 8 (analysisData s)
    (updateCells 0 0 (rawRows now data) (clearSheet st)) r c = none
  have h8 : ¬ (0 ≤ r ∧ 8 ≤ c) := by omega
  have h0 : 0 ≤ r ∧ 0 ≤ c := ⟨Nat.zero_le r, Nat.zero_le c⟩
  rw [updateCells, if_neg h8, updateCells, if_pos h0]
  have hn : (rawRows now data).get? (r - 0) = none := by
    rw [List.get?_eq_none]
    simp only [rawRows, List.length_map]
    omega
  rw [hn]
  rfl

theorem render_replacing_witness :
    render [coinA] "2024-01-01 00:00:00" sumA emptySheet 1 0 = none :=
  (render_idempotent_and_replacing [coinA] "2024-01-01 00:00:00" sumA
    emptySheet emptySheet).2.2 1 0 (by decide) (by decide)

/-- C10: in every rendered row — both in the raw snapshot region and in the
top-5 table — the first column is the provider's name unchanged and the
second column is the provider's symbol converted to upper case; and every
quote appearing in the top-5 table is one of the provider's quotes. -/
theorem rendered_names_and_symbols (data : List AssetQuote) (now : String) :
    (∀ i c, data.get? i = some c →
      ∃ row, (rawRows now data).get? i = some row ∧
        row.get? 0 = some c.name ∧ row.get? 1 = some c.symbol.toUpper) ∧
    (∀ i c, ((sortByDesc data).take 5).get? i = some c →
      ∃ row, (((sortByDesc data).take 5).map top5Row).get? i = some row ∧
        row.get? 0 = some c.name ∧ row.get? 1 = some c.symbol.toUpper) ∧
    (∀ c ∈ (sortByDesc data).take 5, c ∈ data) := by
  refine ⟨?_, ?_, ?_⟩
  · intro i c hc
    refine ⟨rawRow now c, ?_, rfl, rfl⟩
    rw [rawRows, List.get?_map, hc]
    rfl
  · intro i c hc
    refine ⟨top5Row c, ?_, rfl, rfl⟩
    rw [List.get?_map, hc]
    rfl
  · intro c hc
    exact (sortByDesc_perm data).subset (List.take_subset 5 _ hc)

theorem rendered_names_witness :
    ∃ row, (rawRows "t" [coinB]).get? 0 = some row ∧
      row.get? 0 = some coinB.name ∧ row.get? 1 = some coinB.symbol.toUpper :=
  (rendered_names_and_symbols [coinB] "t").1 0 coinB rfl

/-- Outcome of the provider request (src/main.py lines 123-125):
`requestError` stands for any `requests.RequestException`, in particular the
`HTTPError` that `raise_for_status()` raises on a non-success HTTP status such
as 503; `ok data` is a parsed response. -/
inductive FetchResult
  | requestError
  | ok (data : List AssetQuote)

/-- Which of the three sink operations of a cycle succeed.  `gspread` calls
can raise `gspread.exceptions.APIError` (caught at src/main.py line 184); a
`false` field makes the corresponding call raise. -/
structure SinkBehavior where
  clearOk : Bool
  rawUpdateOk : Bool
  analysisUpdateOk : Bool
deriving DecidableEq, Repr

/-- Observable result of one `fetch_and_update_crypto_data` call. -/
structure CycleResult where
  /-- The spreadsheet state after the call. -/
  sheet : SheetState
  /-- How many sink (spreadsheet) operations were attempted. -/
  sinkCalls : Nat
  /-- The `time.sleep(60)` performed inside the `RequestException` handler
  (src/main.py line 182), when that handler ran. -/
  handlerSleep : Option Nat
  /-- Whether an exception escapes the call.  Every branch of the function
  body is covered by the `except` clauses at lines 179-190, so this is
  `false` in every case. -/
  escaped : Bool

/-- One cycle of `fetch_and_update_crypto_data` (src/main.py lines 121-190),
following the `try/except` structure: a provider failure is caught by the
`RequestException` handler (sleeping 60 s, touching no sink); otherwise the
sheet is cleared, the raw rows written, the analysis computed (which raises
on an empty snapshot, caught by the generic handler at line 188), and the
analysis block written; a failing sink call is caught by the `APIError`
handler, leaving the sheet as the preceding calls left it. -/
def runCycle (fetch : FetchResult) (sink : SinkBehavior) (now : String)
    (st : SheetState) : CycleResult :=
  match fetch with
  | .requestError =>
    { sheet := st, sinkCalls := 0, handlerSleep := some 60, escaped := false }
  | .ok data =>
    if sink.clearOk then
      let st1 := clearSheet st
      if sink.rawUpdateOk then
        let st2 := updateCells 0 0 (rawRows now data) st1
        match analyze data with
        | .error _ =>
          { sheet := st2, sinkCalls := 2, handlerSleep := none,
            escaped := false }
        | .ok s =>
          if sink.analysisUpdateOk then
            { sheet := updateCells 0 8 (analysisData s) st2, sinkCalls := 3,
              handlerSleep := none, escaped := false }
          else
            { sheet := st2, sinkCalls := 3, handlerSleep := none,
              escaped := false }
      else
        { sheet := st1, sinkCalls := 2, handlerSleep := none,
          escaped := false }
    else
      { sheet := st, sinkCalls := 1, handlerSleep := none, escaped := false }

/-- Events seen by the `monitor_and_retry` loop (src/main.py lines 192-218):
an exception escaping the `try` block (a `setup_google_sheets_client` failure
or an exception propagating out of a cycle), a cycle returning normally, or a
`KeyboardInterrupt` (which propagates to `main`). -/
inductive LoopEvent
  | fail
  | cycleOk
  | interrupt
deriving DecidableEq, Repr

/-- State of the process around the monitor loop: the loop running with the
current value of `retries`, the process gone through `sys.exit` with a code,
or stopped by `KeyboardInterrupt` (caught in `main`, which then returns
normally, exiting with status 0). -/
inductive LoopState
  | running (retries : Nat)
  | exited (code : Nat)
  | stopped
deriving DecidableEq, Repr

/-- The wait computed at src/main.py line 213: `min(2 ** retries, 600)`. -/
def backoffWait (retries : Nat) : Nat := min (2 ^ retries) 600

/-- One step of `monitor_and_retry` with its default `max_retries=3`
(src/main.py lines 192-218).  On an escaping exception `retries` is
incremented, the backoff wait is slept, and the `while retries < max_retries`
condition decides between another attempt and `sys.exit(1)`.  A cycle that
returns normally changes nothing — in particular the code never resets
`retries`.  The second component is the backoff wait performed, if any. -/
def stepLoop : LoopState → LoopEvent → LoopState × Option Nat
  | .running r, .fail =>
    if r + 1 < 3 then (.running (r + 1), some (backoffWait (r + 1)))
    else (.exited 1, some (backoffWait (r + 1)))
  | .running r, .cycleOk => (.running r, none)
  | .running _, .interrupt => (.stopped, none)
  | s, _ => (s, none)

/-- Folding the loop over a sequence of events. -/
def runLoopFrom (s : LoopState) (events : List LoopEvent) : LoopState :=
  events.foldl (fun st e => (stepLoop st e).1) s

def countFail (events : List LoopEvent) : Nat :=
  events.countP (fun e => e == LoopEvent.fail)

/-- Exit code of the process (src/main.py lines 241-259 and 262-272):
`main` exits with status 1 when the pre-flight health check fails; otherwise
it runs `monitor_and_retry`, whose `sys.exit(1)` propagates (SystemExit is
not an `Exception`), while a `KeyboardInterrupt` is caught and `main` returns
normally, exiting with status 0.  `none` means the loop is still running. -/
def processExit (healthOk : Bool) (events : List LoopEvent) : Option Nat :=
  if healthOk then
    match runLoopFrom (.running 0) events with
    | .exited code => some code
    | .stopped => some 0
    | .running _ => none
  else some 1

/-- How `monitor_and_retry` classifies a finished cycle: only an escaping
exception triggers its `except` branch. -/
def cycleOutcomeEvent (res : CycleResult) : LoopEvent :=
  if res.escaped then .fail else .cycleOk

theorem runLoopFrom_exited (c : Nat) (events : List LoopEvent) :
    runLoopFrom (.exited c) events = .exited c := by
  induction events with
  | nil => rfl
  | cons e es ih => cases e <;> exact ih

theorem runLoopFrom_stopped (events : List LoopEvent) :
    runLoopFrom .stopped events = .stopped := by
  induction events with
  | nil => rfl
  | cons e es ih => cases e <;> exact ih

theorem runLoopFrom_exited_bound (events : List LoopEvent) :
    ∀ r c, runLoopFrom (.running r) events = .exited c →
      c = 1 ∧ 3 ≤ r + countFail events := by
  induction events with
  | nil =>
    intro r c h
    cases h
  | cons e es ih =>
    intro r c h
    cases e with
    | fail =>
      by_cases hr : r + 1 < 3
      · have h' : runLoopFrom (.running (r + 1)) es = .exited c := by
          simpa [runLoopFrom, stepLoop, hr] using h
        rcases ih (r + 1) c h' with ⟨hc, hcount⟩
        refine ⟨hc, ?_⟩
        simp only [countFail, List.countP_cons] at hcount ⊢
        simp at hcount ⊢
        omega
      · have h' : runLoopFrom (.exited 1) es = .exited c := by
          simpa [runLoopFrom, stepLoop, hr] using h
        rw [runLoopFrom_exited] at h'
        have hc : c = 1 := ((LoopState.exited.injEq _ _).mp h').symm
        refine ⟨hc, ?_⟩
        simp only [countFail, List.countP_cons]
        simp
        omega
    | cycleOk =>
      have h' : runLoopFrom (.running r) es = .exited c := by
        simpa [runLoopFrom, stepLoop] using h
      rcases ih r c h' with ⟨hc, hcount⟩
      refine ⟨hc, ?_⟩
      simp only [countFail, List.countP_cons] at hcount ⊢
      simp at hcount ⊢
      omega
    | interrupt =>
      have h' : runLoopFrom .stopped es = .exited c := by
        simpa [runLoopFrom, stepLoop] using h
      rw [runLoopFrom_stopped] at h'
      cases h'

/-- C4 counterexample: the claim says the attempt counter is reset to 0 after
any fully successful cycle, but `monitor_and_retry` never resets `retries`
(src/main.py lines 196-215): after one failure followed by a fully successful
cycle the counter is still 1, not 0. -/
theorem backoff_no_reset_counterexample :
    (stepLoop (stepLoop (.running 0) .fail).1 .cycleOk).1 = .running 1 ∧
    LoopState.running 1 ≠ .running 0 := by
  decide

/-- C4 (amended): the wait before the next retry is
`min(base * 2 ^ attempt, cap)` with base 1 and cap 600, where `attempt` is the
just-incremented failure counter, so consecutive failures produce
non-decreasing waits up to the cap; but a fully successful cycle leaves the
counter unchanged — it is never reset to 0. -/
theorem backoff_wait_and_no_reset (r : Nat) :
    (stepLoop (.running r) .fail).2 = some (min (1 * 2 ^ (r + 1)) 600) ∧
    backoffWait (r + 1) ≤ backoffWait (r + 2) ∧
    (stepLoop (.running r) .cycleOk).1 = .running r := by
  refine ⟨?_, ?_, rfl⟩
  · by_cases hr : r + 1 < 3 <;> simp [stepLoop, hr, backoffWait, one_mul]
  · simp only [backoffWait]
    have h2 : (2 : Nat) ^ (r + 1) ≤ 2 ^ (r + 2) :=
      Nat.pow_le_pow_right (by omega) (by omega)
    omega

/-- C5: the process exits non-zero exactly when the startup health check fails
or the retry budget of 3 is exhausted (which requires at least 3 escaping
failures), it exits with status 0 on a manual stop, and a single failed cycle
never exits the loop: one failure below the budget just increments the counter
and backs off, and a cycle that returns normally changes nothing. -/
theorem exit_codes_correct (events : List LoopEvent) :
    processExit false events = some 1 ∧
    (runLoopFrom (.running 0) events = .stopped →
      processExit true events = some 0) ∧
    (runLoopFrom (.running 0) events = .exited 1 →
      processExit true events = some 1) ∧
    (∀ c, processExit true events = some c → c ≠ 0 →
      runLoopFrom (.running 0) events = .exited 1 ∧ 3 ≤ countFail events) ∧
    (∀ r, r + 1 < 3 →
      stepLoop (.running r) .fail =
        (.running (r + 1), some (backoffWait (r + 1)))) ∧
    (stepLoop (.running 0) .cycleOk).1 = .running 0 := by
  refine ⟨rfl, ?_, ?_, ?_, ?_, rfl⟩
  · intro h
    simp [processExit, h]
  · intro h
    simp [processExit, h]
  · intro c hc hne
    cases heq : runLoopFrom (.running 0) events with
    | running r =>
      simp [processExit, heq] at hc
    | exited c' =>
      rcases runLoopFrom_exited_bound events 0 c' heq with ⟨h1, h2⟩
      exact ⟨by rw [h1], by simpa using h2⟩
    | stopped =>
      simp only [processExit, if_pos rfl, heq] at hc
      have : (0 : Nat) = c := by simpa using hc
      exact absurd this.symm hne
  · intro r hr
    simp [stepLoop, hr]

theorem exit_codes_witness :
    processExit true [.interrupt] = some 0 ∧
    processExit true [.fail, .fail, .fail] = some 1 ∧
    (runLoopFrom (.running 0) [.fail, .fail, .fail] = .exited 1 ∧
      3 ≤ countFail [.fail, .fail, .fail]) ∧
    stepLoop (.running 0) .fail = (.running 1, some (backoffWait 1)) :=
  ⟨(exit_codes_correct [.interrupt]).2.1 (by decide),
   (exit_codes_correct [.fail, .fail, .fail]).2.2.1 (by decide),
   (exit_codes_correct [.fail, .fail, .fail]).2.2.2.1 1 (by decide) (by decide),
   (exit_codes_correct []).2.2.2.2.1 0 (by decide)⟩

/-- A prior sheet state carrying an old summary cell, used as a concrete
input. -/
def priorSheet : SheetState :=
  fun r c => if r = 0 ∧ c = 8 then some "old summary" else none

def sinkAllOk : SinkBehavior :=
  { clearOk := true, rawUpdateOk := true, analysisUpdateOk := true }

def sinkNoAnalysisUpdate : SinkBehavior :=
  { clearOk := true, rawUpdateOk := true, analysisUpdateOk := false }

/-- C6 counterexample: on a non-success HTTP status the claim-true part holds
(no sink call is made), but the loop does not enter Backoff with attempt 1:
the `RequestException` handler inside the cycle swallows the error, nothing
escapes, so the monitor loop sees a normal return and its counter stays 0 —
it never waits the claimed `base*2 = 2` seconds. -/
theorem http_error_counterexample :
    (runCycle .requestError sinkAllOk "t" priorSheet).sinkCalls = 0 ∧
    (runCycle .requestError sinkAllOk "t" priorSheet).escaped = false ∧
    (runCycle .requestError sinkAllOk "t" priorSheet).handlerSleep = some 60 ∧
    stepLoop (.running 0)
      (cycleOutcomeEvent (runCycle .requestError sinkAllOk "t" priorSheet)) =
      (.running 0, none) ∧
    LoopState.running 0 ≠ .running 1 ∧
    backoffWait 1 = 2 := by
  refine ⟨rfl, rfl, rfl, rfl, by decide, by decide⟩

/-- C6 (amended): on a non-success HTTP status no sink call is made and the
sheet is untouched, but the error is handled inside the cycle by a fixed
60-second sleep; no exception escapes, so the monitor loop's retry counter is
unchanged and no exponential-backoff wait occurs — the loop simply proceeds
to the next normal-interval cycle. -/
theorem http_error_cycle (sink : SinkBehavior) (now : String) (st : SheetState)
    (r : Nat) :
    (runCycle .requestError sink now st).sinkCalls = 0 ∧
    (runCycle .requestError sink now st).sheet = st ∧
    (runCycle .requestError sink now st).handlerSleep = some 60 ∧
    (runCycle .requestError sink now st).escaped = false ∧
    stepLoop (.running r)
      (cycleOutcomeEvent (runCycle .requestError sink now st)) =
      (.running r, none) :=
  ⟨rfl, rfl, rfl, rfl, rfl⟩

/-- C8 counterexample: when the summary update fails after the clear and the
raw update succeeded, the sheet ends up in a state that is neither the
unchanged prior state nor the fully-replaced state: the old summary cell is
gone and the new summary was never written. -/
theorem partial_overwrite_counterexample :
    (runCycle (.ok [coinA]) sinkNoAnalysisUpdate "t" priorSheet).sheet ≠
      priorSheet ∧
    (runCycle (.ok [coinA]) sinkNoAnalysisUpdate "t" priorSheet).sheet ≠
      (runCycle (.ok [coinA]) sinkAllOk "t" priorSheet).sheet ∧
    (runCycle (.ok [coinA]) sinkAllOk "t" priorSheet).sheet 0 8 =
      some "Analysis Metrics" := by
  have hgap :
      (runCycle (.ok [coinA]) sinkNoAnalysisUpdate "t" priorSheet).sheet 0 8 =
        none := by decide
  have hfull :
      (runCycle (.ok [coinA]) sinkAllOk "t" priorSheet).sheet 0 8 =
        some "Analysis Metrics" := by decide
  have hprior : priorSheet 0 8 = some "old summary" := rfl
  refine ⟨?_, ?_, hfull⟩
  · intro h
    have hp := congrFun (congrFun h 0) 8
    rw [hgap, hprior] at hp
    cases hp
  · intro h
    have hp := congrFun (congrFun h 0) 8
    rw [hgap, hfull] at hp
    cases hp

/-- C8 (amended): the sheet after a cycle is the unchanged prior state only
when the failure happens before or at the clear (provider error, or a failing
clear); once the clear succeeds, a later failure leaves a partially
overwritten state — everything wiped, or only the raw region written with the
summary region empty (this is what an empty snapshot or a failing summary
update produces) — and only a fully successful cycle reaches the
fully-replaced rendered state. -/
theorem cycle_sheet_outcomes (sink : SinkBehavior) (now : String)
    (st : SheetState) (data : List AssetQuote) (s : Summary) :
    (runCycle .requestError sink now st).sheet = st ∧
    (sink.clearOk = false → (runCycle (.ok data) sink now st).sheet = st) ∧
    (sink.clearOk = true → sink.rawUpdateOk = false →
      (runCycle (.ok data) sink now st).sheet = emptySheet) ∧
    (sink.clearOk = true → sink.rawUpdateOk = true → data = [] →
      (runCycle (.ok data) sink now st).sheet =
        updateCells 0 0 (rawRows now data) emptySheet) ∧
    (sink.clearOk = true → sink.rawUpdateOk = true →
      sink.analysisUpdateOk = false → analyze data = .ok s →
      (runCycle (.ok data) sink now st).sheet =
        updateCells 0 0 (rawRows now data) emptySheet) ∧
    (sink.clearOk = true → sink.rawUpdateOk = true →
      sink.analysisUpdateOk = true → analyze data = .ok s →
      (runCycle (.ok data) sink now st).sheet = render data now s st) := by
  refine ⟨rfl, ?_, ?_, ?_, ?_, ?_⟩
  · intro h1
    simp [runCycle, h1]
  · intro h1 h2
    simp [runCycle, h1, h2, clearSheet]
  · intro h1 h2 h3
    subst h3
    have ha : analyze ([] : List AssetQuote) = .error .statisticsError := rfl
    simp [runCycle, h1, h2, ha, clearSheet]
  · intro h1 h2 h3 h4
    simp [runCycle, h1, h2, h3, h4, clearSheet]
  · intro h1 h2 h3 h4
    simp [runCycle, render, h1, h2, h3, h4, clearSheet]

theorem cycle_sheet_outcomes_witness :
    (runCycle (.ok [coinA]) sinkAllOk "t" priorSheet).sheet =
      render [coinA] "t" sumA priorSheet :=
  (cycle_sheet_outcomes sinkAllOk "t" priorSheet [coinA] sumA).2.2.2.2.2
    rfl rfl rfl (by
      rw [analyze_cons]
      simp [coinA, sumA, sortByDesc, insertByDesc])

/-- One environment-variable credential source as `validate_service_account_json`
sees it (src/main.py lines 28-41): the variable can be unset (or empty, which
the `if source:` test also skips), set to a string that `json.loads` rejects
(the `JSONDecodeError` handler logs and moves on), or set to a parsed JSON
object, modelled as its field-to-string map. -/
inductive CredSource
  | unset
  | malformed
  | parsed (fields : List (String × String))
deriving DecidableEq, Repr

/-- The environment variables the function reads: `SERVICE_ACCOUNT_JSON` and
`GOOGLE_CREDENTIALS`.  The source list at src/main.py lines 28-32 is
`[SERVICE_ACCOUNT_JSON, GOOGLE_CREDENTIALS, SERVICE_ACCOUNT_JSON]` — the
third entry reads the first variable again via `os.getenv`. -/
structure CredEnv where
  service_account_json : CredSource
  google_credentials : CredSource
deriving DecidableEq, Repr

inductive CredError
  | noValidCredentials
deriving DecidableEq, Repr

/-- The keys required at src/main.py lines 44-50: note that `client_id` is
required in addition to the four fields the spec lists. -/
def required_keys : List String :=
  ["type", "project_id", "private_key", "client_email", "client_id"]

def hasKey (fields : List (String × String)) (k : String) : Bool :=
  fields.any (fun p => p.1 == k)

def getField (fields : List (String × String)) (k : String) : Option String :=
  (fields.find? (fun p => p.1 == k)).map (fun p => p.2)

/-- The per-source validation of src/main.py lines 37-73: a source is skipped
when unset, unparseable, missing one of the `required_keys`, or when its
`type` field is not `service_account`; otherwise its object is accepted. -/
def trySource : CredSource → Option (List (String × String))
  | .unset => none
  | .malformed => none
  | .parsed fields =>
    if required_keys.all (fun k => hasKey fields k) then
      if getField fields "type" = some "service_account" then some fields
      else none
    else none

/-- Embedding of `validate_service_account_json` (src/main.py lines 22-80):
the sources `[SERVICE_ACCOUNT_JSON, GOOGLE_CREDENTIALS, SERVICE_ACCOUNT_JSON]`
are tried in order and the first accepted object is returned; if none is
accepted a `ValueError` is raised (modelled as the error value). -/
def validate_service_account_json (env : CredEnv) :
    Except CredError (List (String × String)) :=
  match trySource env.service_account_json with
  | some f => .ok f
  | none =>
    match trySource env.google_credentials with
    | some f => .ok f
    | none =>
      match trySource env.service_account_json with
      | some f => .ok f
      | none => .error .noValidCredentials

/-- Modelled from the spec, for comparison with the code: the spec's notion of
a complete credential object, containing at least the fields `type`,
`project_id`, `private_key`, `client_email`. -/
def specComplete (fields : List (String × String)) : Bool :=
  ["type", "project_id", "private_key", "client_email"].all
    (fun k => hasKey fields k)

/-- A credential object with exactly the four fields the spec calls complete
(and a valid service-account type). -/
def fourFieldCred : List (String × String) :=
  [("type", "service_account"), ("project_id", "p"),
   ("private_key", "k"), ("client_email", "e")]

/-- A credential object with all five keys the code requires. -/
def fullCred : List (String × String) :=
  [("type", "service_account"), ("project_id", "p"),
   ("private_key", "k"), ("client_email", "e"), ("client_id", "c")]

/-- C9 counterexample: a credential object that is complete and valid in the
spec's sense (the four listed fields present, type `service_account`) is
nevertheless rejected by the code, which also demands `client_id`; with it as
the only source, validation raises instead of returning it.  (The code also
has no per-field environment-variable path at all: the only sources are the
two JSON-blob variables.) -/
theorem cred_four_fields_counterexample :
    specComplete fourFieldCred = true ∧
    getField fourFieldCred "type" = some "service_account" ∧
    validate_service_account_json
      { service_account_json := .parsed fourFieldCred,
        google_credentials := .unset } = .error .noValidCredentials := by
  refine ⟨by decide, by decide, by decide⟩

/-- C9 (amended): credential resolution accepts only whole JSON blobs from
the environment variables `SERVICE_ACCOUNT_JSON` and `GOOGLE_CREDENTIALS`
(tried in that priority order, the first one re-checked last; there is no
per-field assembly path); the first object containing all five keys `type`,
`project_id`, `private_key`, `client_email`, `client_id` whose `type` equals
`service_account` wins, and when no source yields such an object a
startup-fatal error is raised. -/
theorem cred_resolution_correct (env : CredEnv) :
    (∀ f, trySource env.service_account_json = some f →
      validate_service_account_json env = .ok f) ∧
    (trySource env.service_account_json = none →
      ∀ f, trySource env.google_credentials = some f →
        validate_service_account_json env = .ok f) ∧
    (trySource env.service_account_json = none →
      trySource env.google_credentials = none →
        validate_service_account_json env = .error .noValidCredentials) ∧
    (∀ f, validate_service_account_json env = .ok f →
      required_keys.all (fun k => hasKey f k) = true ∧
      getField f "type" = some "service_account") := by
  refine ⟨?_, ?_, ?_, ?_⟩
  · intro f hf
    simp [validate_service_account_json, hf]
  · intro h1 f hf
    simp [validate_service_account_json, h1, hf]
  · intro h1 h2
    simp [validate_service_account_json, h1, h2]
  · intro f hf
    have hsome : trySource env.service_account_json = some f ∨
        trySource env.google_credentials = some f := by
      cases h1 : trySource env.service_account_json with
      | some g =>
        left
        simp [validate_service_account_json, h1] at hf
        rw [hf]
      | none =>
        cases h2 : trySource env.google_credentials with
        | some g =>
          right
          simp [validate_service_account_json, h1, h2] at hf
          rw [hf]
        | none =>
          simp [validate_service_account_json, h1, h2] at hf
    have key : ∀ s, trySource s = some f →
        required_keys.all (fun k => hasKey f k) = true ∧
        getField f "type" = some "service_account" := by
      intro s hs
      cases s with
      | unset => cases hs
      | malformed => cases hs
      | parsed fields =>
        by_cases hall : required_keys.all (fun k => hasKey fields k) = true
        · by_cases hty : getField fields "type" = some "service_account"
          · have : fields = f := by
              simpa [trySource, hall, hty] using hs
            subst this
            exact ⟨hall, hty⟩
          · simp [trySource, hall, hty] at hs
        · simp [trySource, hall] at hs
    rcases hsome with h | h
    · exact key _ h
    · exact key _ h

theorem cred_resolution_witness :
    validate_service_account_json
      { service_account_json := .parsed fullCred,
        google_credentials := .unset } = .ok fullCred ∧
    validate_service_account_json
      { service_account_json := .unset,
        google_credentials := .parsed fullCred } = .ok fullCred ∧
    validate_service_account_json
      { service_account_json := .malformed,
        google_credentials := .malformed } = .error .noValidCredentials :=
  ⟨(cred_resolution_correct _).1 fullCred (by decide),
   (cred_resolution_correct _).2.1 (by decide) fullCred (by decide),
   (cred_resolution_correct _).2.2.1 (by decide) (by decide)⟩

end Crypto
